import Mathlib

/-!
Verification of the dejavu-llvm core: a shallow embedding of the linker /
action-to-source synthesizer (src/unnamed/part_000) and of the runtime scope
and array model (src/runtime/scope.cc), together with theorems settling the
frozen specification claims.

Strings are modelled as `List Char` (C++ `std::string` / `const char*` up to
the terminating NUL).  Machine integers are modelled as `Int` / `Nat`: every
quantity involved stays far below any relevant overflow bound (decimal
rendering and small indices), so no explicit wraparound is needed.
-/

set_option autoImplicit false

/-- Decimal digit character for `k` (used by the embedding of C++ `ostream`
decimal output; `k` is always a value of `n % 10`). -/
def digCh (k : Nat) : Char :=
  if k = 0 then '0' else if k = 1 then '1' else if k = 2 then '2'
  else if k = 3 then '3' else if k = 4 then '4' else if k = 5 then '5'
  else if k = 6 then '6' else if k = 7 then '7' else if k = 8 then '8'
  else '9'

/-- Fuel-indexed most-significant-first decimal rendering accumulator.
With fuel at least `n` this computes the standard decimal numeral of `n`. -/
def natDecAuxF : Nat → Nat → List Char → List Char
  | 0, n, acc => digCh (n % 10) :: acc
  | fuel + 1, n, acc =>
    if n < 10 then digCh (n % 10) :: acc
    else natDecAuxF fuel (n / 10) (digCh (n % 10) :: acc)

/-- Decimal numeral of a natural number, as written by `ostream <<` for
unsigned integers. -/
def natDec (n : Nat) : List Char := natDecAuxF n n []

/-- Decimal numeral of an integer, as written by `ostream <<` for signed
integers: optional minus sign followed by the magnitude. -/
def intDec : Int → List Char
  | Int.ofNat n => natDec n
  | Int.negSucc n => '-' :: natDec (n + 1)

theorem digCh_digit (k : Nat) : 48 ≤ (digCh k).toNat ∧ (digCh k).toNat ≤ 57 := by
  unfold digCh
  repeat' split
  all_goals decide

theorem digCh_val (k : Nat) (h : k < 10) : (digCh k).toNat = 48 + k := by
  interval_cases k <;> decide

theorem natDecAuxF_append (fuel : Nat) : ∀ (n : Nat) (acc : List Char),
    natDecAuxF fuel n acc = natDecAuxF fuel n [] ++ acc := by
  induction fuel with
  | zero => intro n acc; simp [natDecAuxF]
  | succ f ih =>
    intro n acc
    by_cases h : n < 10
    · simp [natDecAuxF, h]
    · simp only [natDecAuxF, if_neg h]
      rw [ih (n / 10) (digCh (n % 10) :: acc), ih (n / 10) [digCh (n % 10)]]
      simp

theorem natDecAuxF_fuel (f1 : Nat) : ∀ (f2 n : Nat) (acc : List Char),
    n ≤ f1 → n ≤ f2 → natDecAuxF f1 n acc = natDecAuxF f2 n acc := by
  induction f1 with
  | zero =>
    intro f2 n acc h1 _
    have hn : n = 0 := Nat.le_zero.mp h1
    subst hn
    cases f2 <;> simp [natDecAuxF]
  | succ f ih =>
    intro f2 n acc h1 h2
    by_cases h : n < 10
    · cases f2 with
      | zero =>
        have hn : n = 0 := Nat.le_zero.mp h2
        subst hn
        simp [natDecAuxF]
      | succ g => simp [natDecAuxF, h]
    · cases f2 with
      | zero => omega
      | succ g =>
        simp only [natDecAuxF, if_neg h]
        exact ih g (n / 10) (digCh (n % 10) :: acc) (by omega) (by omega)

theorem natDec_step (n : Nat) :
    natDec n = if n < 10 then [digCh (n % 10)]
               else natDec (n / 10) ++ [digCh (n % 10)] := by
  by_cases h : n < 10
  · rw [if_pos h]
    cases n with
    | zero => rfl
    | succ m => simp [natDec, natDecAuxF, h]
  · cases n with
    | zero => omega
    | succ m =>
      simp only [natDec, natDecAuxF, if_neg h]
      rw [natDecAuxF_append]
      rw [natDecAuxF_fuel m ((m + 1) / 10) ((m + 1) / 10) [] (by omega) (by omega)]

theorem natDec_digits (n : Nat) : ∀ c ∈ natDec n, 48 ≤ c.toNat ∧ c.toNat ≤ 57 := by
  induction n using Nat.strong_induction_on with
  | _ n ih =>
    rw [natDec_step]
    by_cases h : n < 10
    · simp only [if_pos h, List.mem_singleton]
      intro c hc
      subst hc
      exact digCh_digit _
    · simp only [if_neg h]
      intro c hc
      rcases List.mem_append.mp hc with h1 | h2
      · exact ih (n / 10) (by omega) c h1
      · rw [List.mem_singleton.mp h2]
        exact digCh_digit _

theorem natDec_ne_nil (n : Nat) : natDec n ≠ [] := by
  rw [natDec_step]
  by_cases h : n < 10 <;> simp [h]

/-- Numeric value of a digit string (decoding function used to prove that
decimal rendering is injective). -/
def decVal (ds : List Char) : Nat :=
  ds.foldl (fun a c => 10 * a + (c.toNat - 48)) 0

theorem decVal_natDec (n : Nat) : decVal (natDec n) = n := by
  induction n using Nat.strong_induction_on with
  | _ n ih =>
    rw [natDec_step]
    by_cases h : n < 10
    · simp only [if_pos h, decVal, List.foldl_cons, List.foldl_nil]
      rw [digCh_val (n % 10) (by omega)]
      omega
    · simp only [if_neg h, decVal, List.foldl_append, List.foldl_cons, List.foldl_nil]
      have hrec : decVal (natDec (n / 10)) = n / 10 := ih (n / 10) (by omega)
      simp only [decVal] at hrec
      rw [hrec, digCh_val (n % 10) (by omega)]
      omega

theorem natDec_inj {a b : Nat} (h : natDec a = natDec b) : a = b := by
  have := congrArg decVal h
  rwa [decVal_natDec, decVal_natDec] at this

theorem natDec_no_usc (n : Nat) : ('_' : Char) ∉ natDec n := by
  intro hc
  have h := natDec_digits n _ hc
  have h2 : ('_' : Char).toNat = 95 := rfl
  omega

theorem natDec_head_digit (n : Nat) :
    ∃ c t, natDec n = c :: t ∧ 48 ≤ c.toNat ∧ c.toNat ≤ 57 := by
  rcases hne : natDec n with _ | ⟨c, t⟩
  · exact absurd hne (natDec_ne_nil n)
  · refine ⟨c, t, rfl, ?_⟩
    have : c ∈ natDec n := by rw [hne]; exact List.mem_cons_self c t
    exact natDec_digits n c this

theorem intDec_inj {a b : Int} (h : intDec a = intDec b) : a = b := by
  cases a with
  | ofNat m =>
    cases b with
    | ofNat n => exact congrArg Int.ofNat (natDec_inj h)
    | negSucc n =>
      exfalso
      obtain ⟨c, t, he, hd1, hd2⟩ := natDec_head_digit m
      simp only [intDec, he] at h
      have hc : c = '-' := (List.cons.injEq _ _ _ _).mp h |>.1
      have : ('-' : Char).toNat = 45 := rfl
      rw [hc] at hd1
      omega
  | negSucc m =>
    cases b with
    | ofNat n =>
      exfalso
      obtain ⟨c, t, he, hd1, hd2⟩ := natDec_head_digit n
      simp only [intDec, he] at h
      have hc : '-' = c := (List.cons.injEq _ _ _ _).mp h |>.1
      have : ('-' : Char).toNat = 45 := rfl
      rw [← hc] at hd1
      omega
    | negSucc n =>
      simp only [intDec, List.cons.injEq] at h
      have hmn := natDec_inj h.2
      exact congrArg Int.negSucc (by omega)

theorem intDec_no_usc (i : Int) : ('_' : Char) ∉ intDec i := by
  cases i with
  | ofNat n => exact natDec_no_usc n
  | negSucc n =>
    intro hmem
    rcases List.mem_cons.mp hmem with h | h
    · exact absurd h (by decide)
    · exact natDec_no_usc (n + 1) h

/-- Splitting a list at a separator: if the separator does not occur in either
tail, the decomposition `xs ++ sep :: ys` is unique. -/
theorem sep_peel {sep : Char} : ∀ (xs xs2 ys ys2 : List Char), sep ∉ ys → sep ∉ ys2 →
    xs ++ sep :: ys = xs2 ++ sep :: ys2 → xs = xs2 ∧ ys = ys2 := by
  intro xs
  induction xs with
  | nil =>
    intro xs2 ys ys2 hy hy2 h
    cases xs2 with
    | nil =>
      simp only [List.nil_append, List.cons.injEq] at h
      exact ⟨rfl, h.2⟩
    | cons a t =>
      exfalso
      simp only [List.nil_append, List.cons_append, List.cons.injEq] at h
      apply hy
      rw [h.2]
      exact List.mem_append_right t (List.mem_cons_self sep ys2)
  | cons a t ih =>
    intro xs2 ys ys2 hy hy2 h
    cases xs2 with
    | nil =>
      exfalso
      simp only [List.nil_append, List.cons_append, List.cons.injEq] at h
      apply hy2
      rw [← h.2]
      exact List.mem_append_right t (List.mem_cons_self sep ys)
    | cons b u =>
      simp only [List.cons_append, List.cons.injEq] at h
      obtain ⟨hab, hrest⟩ := h
      obtain ⟨h1, h2⟩ := ih u ys ys2 hy hy2 hrest
      exact ⟨by rw [hab, h1], h2⟩

/-- Library-function name generated by `linker::build_libraries`
(src/unnamed/part_000 lines 134-137): `action_lib`, then the parent number
when `parent > -1`, then `_` and the id number. -/
def buildLibName (parent id : Int) : List Char :=
  "action_lib".data ++ ((if -1 < parent then intDec parent else []) ++ '_' :: intDec id)

/-- Callee name emitted by the synthesizer for a normal action whose type has
inline-code execution kind (`linker::build_objects`, src/unnamed/part_000
lines 210-214); the source spells this construction out a second time. -/
def inlineLibName (parent id : Int) : List Char :=
  "action_lib".data ++ ((if -1 < parent then intDec parent else []) ++ '_' :: intDec id)

/-- Name of the fresh unit synthesized for an inline-code action: object name,
event main id, event sub id and action index joined by `_`
(src/unnamed/part_000 line 196). -/
def codeUnitName (o : List Char) (m s a : Nat) : List Char :=
  ((o ++ '_' :: natDec m) ++ '_' :: natDec s) ++ '_' :: natDec a

/-- Name of the per-event procedure: object name, event main id and sub id
joined by `_` (src/unnamed/part_000 line 240). -/
def eventName (o : List Char) (m s : Nat) : List Char :=
  (o ++ '_' :: natDec m) ++ '_' :: natDec s

theorem intDec_nonneg_head_digit (i : Int) (h : 0 ≤ i) :
    ∃ c t, intDec i = c :: t ∧ 48 ≤ c.toNat ∧ c.toNat ≤ 57 := by
  obtain ⟨n, rfl⟩ := Int.eq_ofNat_of_zero_le h
  obtain ⟨c, t, he, hd1, hd2⟩ := natDec_head_digit n
  exact ⟨c, t, (show intDec ((n : Nat) : Int) = natDec n from rfl).trans he, hd1, hd2⟩

theorem buildLibName_inj {p1 i1 p2 i2 : Int} (h1 : -1 ≤ p1) (h2 : -1 ≤ p2)
    (h : buildLibName p1 i1 = buildLibName p2 i2) : p1 = p2 ∧ i1 = i2 := by
  unfold buildLibName at h
  have h0 := List.append_cancel_left h
  have hp1 : p1 = -1 ∨ 0 ≤ p1 := by omega
  have hp2 : p2 = -1 ∨ 0 ≤ p2 := by omega
  rcases hp1 with hp1 | hp1 <;> rcases hp2 with hp2 | hp2
  · subst hp1; subst hp2
    rw [if_neg (show ¬((-1 : Int) < -1) from by omega), List.nil_append,
      List.nil_append, List.cons.injEq] at h0
    exact ⟨rfl, intDec_inj h0.2⟩
  · exfalso
    subst hp1
    rw [if_neg (show ¬((-1 : Int) < -1) from by omega),
      if_pos (show (-1 : Int) < p2 from by omega)] at h0
    obtain ⟨c, t, he, hd1, hd2⟩ := intDec_nonneg_head_digit p2 hp2
    rw [he, List.nil_append, List.cons_append, List.cons.injEq] at h0
    have h3 : ('_' : Char).toNat = 95 := rfl
    rw [h0.1] at h3
    omega
  · exfalso
    subst hp2
    rw [if_neg (show ¬((-1 : Int) < -1) from by omega),
      if_pos (show (-1 : Int) < p1 from by omega)] at h0
    obtain ⟨c, t, he, hd1, hd2⟩ := intDec_nonneg_head_digit p1 hp1
    rw [he, List.nil_append, List.cons_append, List.cons.injEq] at h0
    have h3 : ('_' : Char).toNat = 95 := rfl
    rw [← h0.1] at h3
    omega
  · rw [if_pos (show (-1 : Int) < p1 from by omega),
      if_pos (show (-1 : Int) < p2 from by omega)] at h0
    obtain ⟨ha, hb⟩ := sep_peel _ _ _ _ (intDec_no_usc i1) (intDec_no_usc i2) h0
    exact ⟨intDec_inj ha, intDec_inj hb⟩

theorem codeUnitName_inj {o1 o2 : List Char} {m1 s1 a1 m2 s2 a2 : Nat}
    (h : codeUnitName o1 m1 s1 a1 = codeUnitName o2 m2 s2 a2) :
    o1 = o2 ∧ m1 = m2 ∧ s1 = s2 ∧ a1 = a2 := by
  unfold codeUnitName at h
  obtain ⟨h1, ha⟩ := sep_peel _ _ _ _ (natDec_no_usc a1) (natDec_no_usc a2) h
  obtain ⟨h2, hs⟩ := sep_peel _ _ _ _ (natDec_no_usc s1) (natDec_no_usc s2) h1
  obtain ⟨ho, hm⟩ := sep_peel _ _ _ _ (natDec_no_usc m1) (natDec_no_usc m2) h2
  exact ⟨ho, natDec_inj hm, natDec_inj hs, natDec_inj ha⟩

/-- Execution kind of an action type.  Modelled from the spec: the action-type
descriptor lives in game.h, which is not under src/; the spec gives the kinds
as none, normal-call and inline-code (`exec_none` / `exec_fn` / `exec_code`). -/
inductive ExecKind
  | exec_none
  | exec_fn
  | exec_code
deriving DecidableEq

/-- Structural kind of an action, matching the `action_type::act_*` constants
dispatched on in `linker::build_objects`; `act_other` stands for every value
hitting the `default:` arm. -/
inductive ActKind
  | act_begin
  | act_end
  | act_else
  | act_exit
  | act_repeat
  | act_variable
  | act_code
  | act_normal
  | act_other
deriving DecidableEq

/-- Kind tag of an argument, matching `argument::arg_*`; `arg_resource` stands
for every value hitting the `default:` arm of the renderer (rendered from the
`resource` field). -/
inductive ArgKind
  | arg_expr
  | arg_string
  | arg_both
  | arg_bool
  | arg_menu
  | arg_color
  | arg_resource
deriving DecidableEq

/-- An action argument.  Modelled from the spec for the fields: a tagged kind,
the stored text `val` (a C string; index 0 of the empty string reads the NUL
terminator) and a numeric `resource` reference. -/
structure argument where
  kind : ArgKind
  val : List Char
  resource : Int
deriving DecidableEq

/-- An action-type descriptor.  Modelled from the spec (game.h is not under
src/): execution kind, question/relative flags, optional parent (a signed
integer, absent encoded as values below zero per the `parent > -1` test in
src/unnamed/part_000), id, literal code and declared argument count. -/
structure action_type where
  kind : ActKind
  exec : ExecKind
  question : Bool
  relative : Bool
  parent : Int
  id : Int
  code : List Char
  nargs : Nat
deriving DecidableEq

/-- Modelled from the spec: the `action::self` invocation-target constant
(declared in game.h, not under src/); rendering only compares against it. -/
def actionSelf : Int := -1

/-- One recorded action of an event. -/
structure action where
  type : action_type
  target : Int
  inv : Bool
  relative : Bool
  args : List argument
deriving DecidableEq

/-- One event of an object: identification pair and ordered actions. -/
structure event where
  main_id : Nat
  sub_id : Nat
  actions : List action
deriving DecidableEq

/-- A named object owning events. -/
structure object where
  name : List Char
  events : List event
deriving DecidableEq

/-- A named script with its source text. -/
structure script where
  name : List Char
  code : List Char
deriving DecidableEq

/-- Project data handed to the linker: library action-type descriptors,
scripts and objects (the `game` struct of game.h, counts folded into lists). -/
structure game where
  actions : List action_type
  scripts : List script
  objects : List object
deriving DecidableEq

/-- Replacement text the argument renderer substitutes for a double quote:
`"+'"'+"` (src/unnamed/part_000 line 259); note it itself contains quotes. -/
def escRepl : List Char := "\"+'\"'+\"".data

/-- One `val.replace(val.find(quote), 1, ...)` step: replace the first double
quote by `escRepl`. -/
def replFirstQ : List Char → List Char
  | [] => []
  | c :: cs => if c = '"' then escRepl ++ cs else c :: replFirstQ cs

/-- Fuel-indexed embedding of the renderer's `while (val.find(quote) != npos)`
loop; `none` means the fuel ran out before the loop exited. -/
def escRun : Nat → List Char → Option (List Char)
  | 0, _ => none
  | fuel + 1, v => if '"' ∈ v then escRun fuel (replFirstQ v) else some v

/-- Denotation of the escaping loop: since `escRepl` reintroduces a double
quote at the position just examined, the loop never terminates when `v`
contains a quote (see `escRun_quote` / `escRun_no_quote`), and otherwise
exits immediately leaving `v` unchanged. -/
def escDenote (v : List Char) : Option (List Char) :=
  if '"' ∈ v then none else some v

theorem replFirstQ_quote {v : List Char} (h : '"' ∈ v) : '"' ∈ replFirstQ v := by
  induction v with
  | nil => cases h
  | cons c cs ih =>
    by_cases hc : c = '"'
    · simp only [replFirstQ, if_pos hc]
      exact List.mem_append_left cs (by decide)
    · simp only [replFirstQ, if_neg hc]
      rcases List.mem_cons.mp h with h1 | h1
      · exact absurd h1.symm hc
      · exact List.mem_cons_of_mem c (ih h1)

theorem escRun_quote {v : List Char} (h : '"' ∈ v) : ∀ fuel, escRun fuel v = none := by
  intro fuel
  induction fuel generalizing v with
  | zero => rfl
  | succ f ih =>
    simp only [escRun, if_pos h]
    exact ih (replFirstQ_quote h)

theorem escRun_no_quote {v : List Char} (h : '"' ∉ v) (fuel : Nat) :
    escRun (fuel + 1) v = some v := by
  simp [escRun, h]

theorem escDenote_escRun (v : List Char) :
    (escDenote v = none → ∀ fuel, escRun fuel v = none) ∧
    (∀ r, escDenote v = some r → ∀ fuel, escRun (fuel + 1) v = some r) := by
  unfold escDenote
  by_cases h : '"' ∈ v
  · simp only [if_pos h]
    constructor
    · intro _ fuel
      exact escRun_quote h fuel
    · intro r hr
      exact absurd hr (by simp)
  · simp only [if_neg h]
    constructor
    · intro hc
      exact absurd hc (by simp)
    · intro r hr fuel
      rw [escRun_no_quote h fuel]
      exact hr

/-- The string-literal case of the argument renderer (`arg_string`, and the
`arg_both` fall-through): run the quote-escaping loop on `val`, then emit the
escaped text between double quotes.  `none` models the loop's divergence. -/
def strRender (v : List Char) : Option (List Char) :=
  (escDenote v).map (fun w => '"' :: (w ++ ['"']))

/-- C++ `ostream << bool` without `boolalpha`: `1` or `0`. -/
def boolStr (b : Bool) : List Char := if b then "1".data else "0".data

/-- Embedding of `operator <<(std::ostream &, const argument &)`
(src/unnamed/part_000 lines 247-276). -/
def renderArg (a : argument) : Option (List Char) :=
  match a.kind with
  | ArgKind.arg_expr => some a.val
  | ArgKind.arg_both =>
    if a.val.headD (Char.ofNat 0) = '"' ∨ a.val.headD (Char.ofNat 0) = Char.ofNat 39
    then some a.val
    else strRender a.val
  | ArgKind.arg_string => strRender a.val
  | ArgKind.arg_bool =>
    some (if a.val.headD (Char.ofNat 0) = '0' then "1".data else "0".data)
  | ArgKind.arg_menu => some a.val
  | ArgKind.arg_color => some ('$' :: a.val)
  | ArgKind.arg_resource => some (intDec a.resource)

/-- Render the arguments of a normal action one after another, `none` as soon
as one of them diverges (the renderer writes them to the stream in order). -/
def renderArgs : List argument → Option (List (List Char))
  | [] => some []
  | a :: as =>
    match renderArg a, renderArgs as with
    | some r, some rs => some (r :: rs)
    | _, _ => none

/-- The comma-joining loop of the normal-action case: the first argument is
written bare, each later one is preceded by `", "`. -/
def argLoop : List (List Char) → List Char
  | [] => []
  | p :: ps => ps.foldl (fun acc q => acc ++ ", ".data ++ q) p

theorem argLoop_foldl (ps : List (List Char)) : ∀ acc : List Char,
    ps.foldl (fun a q => a ++ ", ".data ++ q) acc
      = acc ++ (ps.map (fun q => ", ".data ++ q)).flatten := by
  induction ps with
  | nil => intro acc; simp
  | cons p ps ih =>
    intro acc
    simp only [List.foldl_cons, List.map_cons, List.flatten_cons]
    rw [ih]
    simp

theorem intercalate_comma (ps : List (List Char)) : ∀ p : List Char,
    List.intercalate (", ".data) (p :: ps)
      = p ++ (ps.map (fun q => ", ".data ++ q)).flatten := by
  induction ps with
  | nil => intro p; simp [List.intercalate]
  | cons q ps ih =>
    intro p
    have hq := ih q
    simp only [List.intercalate] at hq ⊢
    rw [List.intersperse_cons_cons, List.flatten_cons, List.flatten_cons, hq,
      List.map_cons, List.flatten_cons]
    simp [List.append_assoc]

theorem argLoop_eq_intercalate (ps : List (List Char)) :
    argLoop ps = List.intercalate (", ".data) ps := by
  cases ps with
  | nil => rfl
  | cons p ps => rw [argLoop, argLoop_foldl, intercalate_comma]

/-- Default-constructed argument used to model fixed-array access
`act.args[k]` beyond the populated prefix. -/
def defaultArg : argument := ⟨ArgKind.arg_expr, [], 0⟩

/-- Rendering of the `act_normal` case of `linker::build_objects`
(src/unnamed/part_000 lines 203-233), as the text this action appends to the
event body.  `none` models divergence of the argument renderer's escaping
loop.  An action whose type has execution kind `exec_none` contributes
nothing. -/
def renderNormal (act : action) : Option (List Char) :=
  if act.type.exec = ExecKind.exec_none then some [] else
  match renderArgs act.args with
  | none => none
  | some parts => some (
      (if act.target ≠ actionSelf then "with (".data ++ intDec act.target ++ ")".data else [])
      ++ (if act.type.question then "if (".data else [])
      ++ (if act.inv then "!".data else [])
      ++ (if act.type.exec = ExecKind.exec_code
          then inlineLibName act.type.parent act.type.id
          else act.type.code)
      ++ "(".data
      ++ argLoop parts
      ++ (if act.type.relative then ", ".data ++ boolStr act.relative else [])
      ++ ")".data
      ++ (if act.type.question then ")".data else [])
      ++ "\n".data)

/-- A function appended to the program module: name, declared argument count
and the variadic (is-script) flag of the `compiler.add_function` call. -/
structure LinkFn where
  name : List Char
  args : Nat
  variadic : Bool
deriving DecidableEq

/-- Observable linker state: accumulated diagnostics (the diagnostics sink,
`count()` is the list length), functions added to the program module, script
names registered with the code generator, and artifact paths written. -/
structure LinkSt where
  errors : List (List Char)
  fns : List LinkFn
  registered : List (List Char)
  artifacts : List (List Char)
deriving DecidableEq

/-- One compilation unit as passed to `linker::add_function`: source text,
function name, argument count, variadic flag. -/
structure UnitSrc where
  code : List Char
  name : List Char
  args : Nat
  var : Bool

/-- Embedding of `linker::add_function` (src/unnamed/part_000 lines 278-293).
`parse` is the external parser collaborator, returning the diagnostics it
emits into the sink for a given source text.  After parsing, the source tests
the sink's cumulative `errors.count() > 0` — not just this unit's own parse
result — and abandons the unit if it is nonzero; otherwise the code-generation
collaborator appends one function (modelled from the spec: `addFunction`
appends a function named `name` with `args` parameters to the program
module; codegen.cc is not under src/). -/
def add_function (parse : List Char → List (List Char)) (st : LinkSt) (u : UnitSrc) :
    LinkSt :=
  let st1 : LinkSt := { st with errors := st.errors ++ parse u.code }
  if st1.errors.length > 0 then st1
  else { st1 with fns := st1.fns ++ [⟨u.name, u.args, u.var⟩] }

/-- Modelled from the spec: `compiler.register_script` records a script name
with the code generator so later bodies can resolve calls to it (codegen.cc
is not under src/). -/
def register_script (st : LinkSt) (n : List Char) : LinkSt :=
  { st with registered := st.registered ++ [n] }

/-- Modelled from the spec: the code generator resolves a call to a script
iff that script's name has been registered when the calling body is
compiled. -/
def resolvesScriptCall (st : LinkSt) (callee : List Char) : Prop :=
  callee ∈ st.registered

/-- Embedding of `linker::build_libraries` (src/unnamed/part_000 lines
129-146): for each action-type descriptor with inline-code execution kind,
compile its code as a library function; the argument count is the declared
count plus one if the type is relative-capable. -/
def build_libraries (parse : List Char → List (List Char)) (g : game) (st : LinkSt) :
    LinkSt :=
  g.actions.foldl (fun st t =>
    if t.exec ≠ ExecKind.exec_code then st
    else add_function parse st
      ⟨t.code, buildLibName t.parent t.id, t.nargs + (if t.relative then 1 else 0), false⟩)
    st

/-- First loop of `linker::build_scripts` (src/unnamed/part_000 lines
150-152): register every script name. -/
def scriptsPass1 (g : game) (st : LinkSt) : LinkSt :=
  g.scripts.foldl (fun st s => register_script st s.name) st

/-- Second loop of `linker::build_scripts` (src/unnamed/part_000 lines
154-159): compile every script body as a variadic zero-argument function. -/
def scriptsPass2 (parse : List Char → List (List Char)) (g : game) (st : LinkSt) :
    LinkSt :=
  g.scripts.foldl (fun st s => add_function parse st ⟨s.code, s.name, 0, true⟩) st

/-- Embedding of `linker::build_scripts` (src/unnamed/part_000 lines
148-160): the registration pass runs to completion before any body is
compiled. -/
def build_scripts (parse : List Char → List (List Char)) (g : game) (st : LinkSt) :
    LinkSt :=
  scriptsPass2 parse g (scriptsPass1 g st)

/-- Processing of one action inside the per-event loop of
`linker::build_objects` (src/unnamed/part_000 lines 174-237): thread the
linker state and the accumulated body text; `none` models divergence of the
argument renderer.  The index `a` is the action's position in the event. -/
def processAction (parse : List Char → List (List Char)) (obj : List Char) (m s : Nat)
    (acc : Option (LinkSt × List Char)) (ia : Nat × action) : Option (LinkSt × List Char) :=
  match acc with
  | none => none
  | some (st, body) =>
    match ia.2.type.kind with
    | ActKind.act_begin => some (st, body ++ "\x7b\n".data)
    | ActKind.act_end => some (st, body ++ "\x7d\n".data)
    | ActKind.act_else => some (st, body ++ "else\n".data)
    | ActKind.act_exit => some (st, body ++ "exit\n".data)
    | ActKind.act_repeat =>
      some (st, body ++ "repeat (".data ++ (ia.2.args.getD 0 defaultArg).val ++ ")\n".data)
    | ActKind.act_variable =>
      some (st, body ++ (ia.2.args.getD 0 defaultArg).val
        ++ (if ia.2.relative then " += ".data else " = ".data)
        ++ (ia.2.args.getD 1 defaultArg).val ++ "\n".data)
    | ActKind.act_code =>
      some (add_function parse st
          ⟨(ia.2.args.getD 0 defaultArg).val, codeUnitName obj m s ia.1, 0, false⟩,
        body ++ codeUnitName obj m s ia.1 ++ "()\n".data)
    | ActKind.act_normal =>
      match renderNormal ia.2 with
      | none => none
      | some t => some (st, body ++ t)
    | ActKind.act_other => some (st, body)

/-- Compilation of one event of `linker::build_objects` (src/unnamed/part_000
lines 168-243): synthesize the body from the actions, then compile it as a
zero-argument function named from the object and event ids. -/
def build_event (parse : List Char → List (List Char)) (obj : List Char) (evt : event)
    (st : LinkSt) : Option LinkSt :=
  match evt.actions.enum.foldl (processAction parse obj evt.main_id evt.sub_id)
      (some (st, [])) with
  | none => none
  | some (st2, body) =>
    some (add_function parse st2 ⟨body, eventName obj evt.main_id evt.sub_id, 0, false⟩)

/-- Embedding of `linker::build_objects` (src/unnamed/part_000 lines
163-245). -/
def build_objects (parse : List Char → List (List Char)) (g : game) (st : LinkSt) :
    Option LinkSt :=
  g.objects.foldl (fun acc obj =>
    obj.events.foldl (fun acc2 evt => acc2.bind (build_event parse obj.name evt)) acc)
    (some st)

/-- Embedding of `linker::link` (src/unnamed/part_000 lines 99-127).
`mergeFails` is the result of the two `Linker::linkInModule` calls on the
intermediate and runtime modules, `openErr` the filesystem error (if any)
from opening the target path; writing the bitcode is modelled as appending
the target path to the artifact list.  The optimization passes have no
observable effect here.  Note the source does not return after a failed
merge: it records the single diagnostic and still writes the output. -/
def link (st : LinkSt) (mergeFails : Bool) (openErr : Option (List Char))
    (target : List Char) : Bool × LinkSt :=
  let st1 := if mergeFails
    then { st with errors := st.errors ++ ["failed to link with runtime".data] }
    else st
  match openErr with
  | some e => (false, { st1 with errors := st1.errors ++ [e] })
  | none => (true, { st1 with artifacts := st1.artifacts ++ [target] })

/-- A variable slot value.  Modelled from the spec: slots are created
default/uninitialized (variant.h is not under src/); the payload beyond that
is irrelevant to the claims. -/
inductive Var
  | uninit
  | ival (n : Int)
deriving DecidableEq

/-- A scope: the `std::unordered_map<string, var>` of scope.cc, modelled as an
association list in insertion order (reference identity of a slot is the pair
of the owning map and the key, which `unordered_map` keeps stable). -/
abbrev Scope := List (List Char × Var)

/-- `map.find`-like lookup. -/
def scopeFind : Scope → List Char → Option Var
  | [], _ => none
  | (k, v) :: s, n => if k = n then some v else scopeFind s n

/-- `(*s)[name]`'s mutation: `operator[]` default-inserts a missing key and
leaves the map unchanged otherwise. -/
def scopeIndex (s : Scope) (n : List Char) : Scope :=
  match scopeFind s n with
  | some _ => s
  | none => s ++ [(n, Var.uninit)]

/-- Runtime variable state: the caller-provided self and other instance
scopes, and the single process-wide `static scope global` of scope.cc. -/
structure RtSt where
  selfSc : Scope
  otherSc : Scope
  globalSc : Scope
deriving DecidableEq

/-- Which mapping a returned slot lives in. -/
inductive ScopeRef
  | selfS
  | otherS
  | globalS
deriving DecidableEq

/-- Observable outcome of `lookup`: a slot reference (owning map plus key), a
fatal `show_error` followed by a null return, or a plain null return with no
error raised. -/
inductive LookupOut
  | slotRef (r : ScopeRef) (n : List Char)
  | fatal (msg : List Char)
  | nullSlot
deriving DecidableEq

/-- Embedding of `lookup` (src/runtime/scope.cc lines 20-43).  The source
receives the selector as a `double` and switches on its truncation to `int`;
`sel` here is that integer.  Resolving a scope returns `&(*s)[name]`, which
default-inserts a missing name. -/
def lookup (st : RtSt) (sel : Int) (name : List Char) : LookupOut × RtSt :=
  if sel = -1 then
    (LookupOut.slotRef ScopeRef.selfS name, { st with selfSc := scopeIndex st.selfSc name })
  else if sel = -2 then
    (LookupOut.slotRef ScopeRef.otherS name, { st with otherSc := scopeIndex st.otherSc name })
  else if sel = -5 then
    (LookupOut.slotRef ScopeRef.globalS name, { st with globalSc := scopeIndex st.globalSc name })
  else if sel = -3 ∨ sel = -4 then
    (LookupOut.fatal ("variable does not exist".data), st)
  else if sel = -6 then
    (LookupOut.fatal ("local is not supported".data), st)
  else
    (LookupOut.nullSlot, st)

/-- An array variant: current extents and cell grid (`var` of variant.h;
only the fields read by `access` are modelled). -/
structure ArrVar where
  x : Nat
  y : Nat
  contents : List Var
deriving DecidableEq

/-- Embedding of `access` (src/runtime/scope.cc lines 46-58): bounds-check
`x` then `y` against the current extents, fatal "index out of bounds" on
either failure, otherwise a reference to the cell at flat position
`x + y * a.x`.  The function never writes to the array, returned unchanged. -/
def access (a : ArrVar) (x y : Nat) : Except (List Char) Nat × ArrVar :=
  if a.x ≤ x then (Except.error ("index out of bounds".data), a)
  else if a.y ≤ y then (Except.error ("index out of bounds".data), a)
  else (Except.ok (x + y * a.x), a)

theorem add_function_registered (parse : List Char → List (List Char)) (st : LinkSt)
    (u : UnitSrc) : (add_function parse st u).registered = st.registered := by
  simp only [add_function]
  split <;> rfl

theorem add_function_fns_clean (parse : List Char → List (List Char)) (st : LinkSt)
    (u : UnitSrc) (he : st.errors = []) (hp : parse u.code = []) :
    (add_function parse st u).fns = st.fns ++ [⟨u.name, u.args, u.var⟩] ∧
    (add_function parse st u).errors = [] := by
  simp [add_function, he, hp]

theorem build_libraries_registered (parse : List Char → List (List Char)) (g : game) :
    ∀ st : LinkSt, (build_libraries parse g st).registered = st.registered := by
  unfold build_libraries
  generalize g.actions = l
  induction l with
  | nil => intro st; rfl
  | cons t l ih =>
    intro st
    rw [List.foldl_cons, ih]
    split
    · rfl
    · rw [add_function_registered]

theorem scriptsPass1_fns (g : game) : ∀ st : LinkSt,
    (scriptsPass1 g st).fns = st.fns := by
  unfold scriptsPass1
  generalize g.scripts = l
  induction l with
  | nil => intro st; rfl
  | cons s l ih =>
    intro st
    rw [List.foldl_cons, ih]
    rfl

theorem scriptsPass1_errors (g : game) : ∀ st : LinkSt,
    (scriptsPass1 g st).errors = st.errors := by
  unfold scriptsPass1
  generalize g.scripts = l
  induction l with
  | nil => intro st; rfl
  | cons s l ih =>
    intro st
    rw [List.foldl_cons, ih]
    rfl

theorem scriptsPass1_registered (g : game) : ∀ st : LinkSt,
    (scriptsPass1 g st).registered = st.registered ++ g.scripts.map (fun s => s.name) := by
  unfold scriptsPass1
  generalize g.scripts = l
  induction l with
  | nil => intro st; simp
  | cons s l ih =>
    intro st
    rw [List.foldl_cons, ih]
    simp [register_script]

theorem scriptsPass2_registered (parse : List Char → List (List Char)) (g : game) :
    ∀ st : LinkSt, (scriptsPass2 parse g st).registered = st.registered := by
  unfold scriptsPass2
  generalize g.scripts = l
  induction l with
  | nil => intro st; rfl
  | cons s l ih =>
    intro st
    rw [List.foldl_cons, ih, add_function_registered]

theorem scriptsPass2_fns_clean (parse : List Char → List (List Char)) (l : List script) :
    ∀ st : LinkSt, st.errors = [] → (∀ s ∈ l, parse s.code = []) →
    (l.foldl (fun st s => add_function parse st ⟨s.code, s.name, 0, true⟩) st).fns
      = st.fns ++ l.map (fun s => ⟨s.name, 0, true⟩) := by
  induction l with
  | nil => intro st _ _; simp
  | cons s l ih =>
    intro st he hp
    rw [List.foldl_cons]
    obtain ⟨h1, h2⟩ := add_function_fns_clean parse st ⟨s.code, s.name, 0, true⟩ he
      (hp s (List.mem_cons_self s l))
    rw [ih _ h2 (fun u hu => hp u (List.mem_cons_of_mem s hu)), h1]
    simp

theorem processAction_none (parse : List Char → List (List Char)) (obj : List Char)
    (m s : Nat) (ia : Nat × action) :
    processAction parse obj m s none ia = none := rfl

theorem paFold_none (parse : List Char → List (List Char)) (obj : List Char)
    (m s : Nat) (l : List (Nat × action)) :
    l.foldl (processAction parse obj m s) none = none := by
  induction l with
  | nil => rfl
  | cons ia l ih => rw [List.foldl_cons, processAction_none]; exact ih

theorem evFold_none (parse : List Char → List (List Char)) (objName : List Char)
    (l : List event) :
    l.foldl (fun acc2 evt => acc2.bind (build_event parse objName evt)) none = none := by
  induction l with
  | nil => rfl
  | cons e l ih => rw [List.foldl_cons, Option.none_bind]; exact ih

theorem objFold_none (parse : List Char → List (List Char)) (l : List object) :
    l.foldl (fun acc obj =>
        obj.events.foldl (fun acc2 evt => acc2.bind (build_event parse obj.name evt)) acc)
      none = none := by
  induction l with
  | nil => rfl
  | cons o l ih => rw [List.foldl_cons, evFold_none]; exact ih

theorem processAction_registered (parse : List Char → List (List Char))
    (obj : List Char) (m s : Nat) (st : LinkSt) (body : List Char) (a : Nat)
    (act : action) (st2 : LinkSt) (body2 : List Char)
    (h : processAction parse obj m s (some (st, body)) (a, act) = some (st2, body2)) :
    st2.registered = st.registered := by
  cases hk : act.type.kind <;>
    simp only [processAction, hk, Option.some.injEq, Prod.mk.injEq] at h
  case act_begin => rw [← h.1]
  case act_end => rw [← h.1]
  case act_else => rw [← h.1]
  case act_exit => rw [← h.1]
  case act_repeat => rw [← h.1]
  case act_variable => rw [← h.1]
  case act_code => rw [← h.1, add_function_registered]
  case act_normal =>
    rcases hr : renderNormal act with _ | t <;> rw [hr] at h
    · cases h
    · simp only [Option.some.injEq, Prod.mk.injEq] at h
      rw [← h.1]
  case act_other => rw [← h.1]

theorem paFold_registered (parse : List Char → List (List Char)) (obj : List Char)
    (m s : Nat) (l : List (Nat × action)) : ∀ (st : LinkSt) (body : List Char)
    (st2 : LinkSt) (body2 : List Char),
    l.foldl (processAction parse obj m s) (some (st, body)) = some (st2, body2) →
    st2.registered = st.registered := by
  induction l with
  | nil =>
    intro st body st2 body2 h
    injection h with h
    injection h with h1 h2
    rw [← h1]
  | cons ia l ih =>
    intro st body st2 body2 h
    rw [List.foldl_cons] at h
    rcases hstep : processAction parse obj m s (some (st, body)) ia with _ | ⟨st1, body1⟩
    · rw [hstep, paFold_none] at h
      cases h
    · rw [hstep] at h
      obtain ⟨a, act⟩ := ia
      rw [ih st1 body1 st2 body2 h,
        processAction_registered parse obj m s st body a act st1 body1 hstep]

theorem build_event_registered (parse : List Char → List (List Char)) (obj : List Char)
    (evt : event) (st st2 : LinkSt) (h : build_event parse obj evt st = some st2) :
    st2.registered = st.registered := by
  unfold build_event at h
  rcases hfold : evt.actions.enum.foldl (processAction parse obj evt.main_id evt.sub_id)
      (some (st, [])) with _ | ⟨st1, body⟩ <;> rw [hfold] at h
  · cases h
  · injection h with h
    rw [← h, add_function_registered]
    exact paFold_registered parse obj evt.main_id evt.sub_id _ st [] st1 body hfold

theorem evFold_registered (parse : List Char → List (List Char)) (objName : List Char)
    (l : List event) : ∀ (st st2 : LinkSt),
    l.foldl (fun acc2 evt => acc2.bind (build_event parse objName evt)) (some st)
      = some st2 → st2.registered = st.registered := by
  induction l with
  | nil =>
    intro st st2 h
    injection h with h
    rw [← h]
  | cons evt l ih =>
    intro st st2 h
    rw [List.foldl_cons, Option.some_bind] at h
    rcases hstep : build_event parse objName evt st with _ | st1 <;> rw [hstep] at h
    · rw [evFold_none] at h
      cases h
    · rw [ih st1 st2 h]
      exact build_event_registered parse objName evt st st1 hstep

theorem build_objects_registered (parse : List Char → List (List Char)) (g : game)
    (st st2 : LinkSt) (h : build_objects parse g st = some st2) :
    st2.registered = st.registered := by
  unfold build_objects at h
  revert h
  generalize g.objects = l
  revert st st2
  induction l with
  | nil =>
    intro st st2 h
    injection h with h
    rw [← h]
  | cons obj l ih =>
    intro st st2 h
    rw [List.foldl_cons] at h
    rcases hstep : obj.events.foldl
        (fun acc2 evt => acc2.bind (build_event parse obj.name evt)) (some st)
      with _ | st1 <;> rw [hstep] at h
    · rw [objFold_none] at h
      cases h
    · rw [ih st1 st2 h]
      exact evFold_registered parse obj.name obj.events st st1 hstep

theorem scopeFind_append_self (s : Scope) (n : List Char) (v : Var)
    (h : scopeFind s n = none) : scopeFind (s ++ [(n, v)]) n = some v := by
  induction s with
  | nil => simp [scopeFind]
  | cons kv s ih =>
    obtain ⟨k, w⟩ := kv
    by_cases hk : k = n
    · simp [scopeFind, hk] at h
    · simp only [scopeFind, if_neg hk] at h
      simp only [List.cons_append, scopeFind, if_neg hk]
      exact ih h

theorem scopeIndex_find (s : Scope) (n : List Char) :
    (scopeFind (scopeIndex s n)) n ≠ none := by
  unfold scopeIndex
  rcases h : scopeFind s n with _ | v
  · rw [scopeFind_append_self s n Var.uninit h]
    simp
  · rw [h]
    simp

theorem scopeIndex_idem (s : Scope) (n : List Char) :
    scopeIndex (scopeIndex s n) n = scopeIndex s n := by
  unfold scopeIndex
  rcases h : scopeFind s n with _ | v
  · simp only [h, scopeFind_append_self s n Var.uninit h]
  · simp only [h]

/-- C5: `access` on an array with extents `X` and `Y` signals the fatal
"index out of bounds" error and yields no cell exactly when `x ≥ X` or
`y ≥ Y` — in particular always at `x = X` or `y = Y` — and otherwise yields
the cell at flat position `x + y * X`; in every case the array (extents and
contents) is returned unchanged, never resized. -/
theorem c5_access_bounds :
    (∀ (a : ArrVar) (x y : Nat),
      access a x y =
        (if a.x ≤ x ∨ a.y ≤ y then Except.error ("index out of bounds".data)
         else Except.ok (x + y * a.x), a)) ∧
    (∀ (a : ArrVar) (y : Nat),
      (access a a.x y).1 = Except.error ("index out of bounds".data)) ∧
    (∀ (a : ArrVar) (x : Nat),
      (access a x a.y).1 = Except.error ("index out of bounds".data)) := by
  refine ⟨fun a x y => ?_, fun a y => ?_, fun a x => ?_⟩
  · unfold access
    by_cases h1 : a.x ≤ x
    · rw [if_pos h1, if_pos (Or.inl h1)]
    · rw [if_neg h1]
      by_cases h2 : a.y ≤ y
      · rw [if_pos h2, if_pos (Or.inr h2)]
      · rw [if_neg h2, if_neg (by tauto)]
  · unfold access
    rw [if_pos (Nat.le_refl a.x)]
  · unfold access
    by_cases h1 : a.x ≤ x
    · rw [if_pos h1]
    · rw [if_neg h1, if_pos (Nat.le_refl a.y)]

/-- C6: `lookup` dispatches on the selector: `-1` (current instance) resolves
against the self scope, `-2` (other instance) against the other scope, `-5`
(global) against the process-wide global mapping; `-3` and `-4`
(all-instances and dynamic-other) fatally raise "variable does not exist",
`-6` (local) fatally raises "local is not supported", each yielding no slot
and leaving every scope unchanged; any other selector value yields a null
slot without raising any error. -/
theorem c6_lookup_dispatch (st : RtSt) (n : List Char) :
    lookup st (-1) n =
      (LookupOut.slotRef ScopeRef.selfS n, { st with selfSc := scopeIndex st.selfSc n }) ∧
    lookup st (-2) n =
      (LookupOut.slotRef ScopeRef.otherS n, { st with otherSc := scopeIndex st.otherSc n }) ∧
    lookup st (-5) n =
      (LookupOut.slotRef ScopeRef.globalS n, { st with globalSc := scopeIndex st.globalSc n }) ∧
    lookup st (-3) n = (LookupOut.fatal ("variable does not exist".data), st) ∧
    lookup st (-4) n = (LookupOut.fatal ("variable does not exist".data), st) ∧
    lookup st (-6) n = (LookupOut.fatal ("local is not supported".data), st) ∧
    (∀ sel : Int, sel ∉ ([-1, -2, -3, -4, -5, -6] : List Int) →
      lookup st sel n = (LookupOut.nullSlot, st)) := by
  refine ⟨rfl, rfl, rfl, rfl, rfl, rfl, fun sel hs => ?_⟩
  simp only [List.mem_cons, List.not_mem_nil, or_false, not_or] at hs
  obtain ⟨h1, h2, h3, h4, h5, h6⟩ := hs
  unfold lookup
  rw [if_neg h1, if_neg h2, if_neg h5, if_neg (by tauto), if_neg h6]

/-- C6 witness: a selector outside the recognized range (here 0) yields a
null slot with no error and no state change. -/
theorem c6_lookup_dispatch_witness :
    (0 : Int) ∉ ([-1, -2, -3, -4, -5, -6] : List Int) ∧
    lookup ⟨[], [], []⟩ 0 ("x".data) = (LookupOut.nullSlot, ⟨[], [], []⟩) :=
  ⟨by decide, (c6_lookup_dispatch ⟨[], [], []⟩ ("x".data)).2.2.2.2.2.2 0 (by decide)⟩

/-- C7: two global-selector lookups of the same name return the same slot
(the same key of the single process-wide global mapping) — the second call
leaves the state reached by the first call entirely unchanged — and in each
resolvable scope a name not yet present is inserted with the uninitialized
default value while its slot is returned, rather than failing. -/
theorem c7_global_shared (st : RtSt) (n : List Char) :
    (lookup st (-5) n).1 = LookupOut.slotRef ScopeRef.globalS n ∧
    (lookup ((lookup st (-5) n).2) (-5) n).1 = (lookup st (-5) n).1 ∧
    (lookup ((lookup st (-5) n).2) (-5) n).2 = (lookup st (-5) n).2 ∧
    (scopeFind st.globalSc n = none →
      (lookup st (-5) n).2.globalSc = st.globalSc ++ [(n, Var.uninit)]) ∧
    (scopeFind st.selfSc n = none →
      (lookup st (-1) n).1 = LookupOut.slotRef ScopeRef.selfS n ∧
      (lookup st (-1) n).2.selfSc = st.selfSc ++ [(n, Var.uninit)]) ∧
    (scopeFind st.otherSc n = none →
      (lookup st (-2) n).1 = LookupOut.slotRef ScopeRef.otherS n ∧
      (lookup st (-2) n).2.otherSc = st.otherSc ++ [(n, Var.uninit)]) := by
  refine ⟨rfl, rfl, ?_, fun h => ?_, fun h => ⟨rfl, ?_⟩, fun h => ⟨rfl, ?_⟩⟩
  · show ({ (lookup st (-5) n).2 with
        globalSc := scopeIndex ((lookup st (-5) n).2).globalSc n } : RtSt)
      = (lookup st (-5) n).2
    show ({ { st with globalSc := scopeIndex st.globalSc n } with
        globalSc := scopeIndex (scopeIndex st.globalSc n) n } : RtSt)
      = { st with globalSc := scopeIndex st.globalSc n }
    rw [scopeIndex_idem]
  · show scopeIndex st.globalSc n = st.globalSc ++ [(n, Var.uninit)]
    unfold scopeIndex
    rw [h]
  · show scopeIndex st.selfSc n = st.selfSc ++ [(n, Var.uninit)]
    unfold scopeIndex
    rw [h]
  · show scopeIndex st.otherSc n = st.otherSc ++ [(n, Var.uninit)]
    unfold scopeIndex
    rw [h]

/-- C7 witness: with an empty global scope, looking `x` up twice through the
global selector auto-vivifies the slot once and returns it both times. -/
theorem c7_global_shared_witness :
    scopeFind ([] : Scope) ("x".data) = none ∧
    (lookup ⟨[], [], []⟩ (-5) ("x".data)).2.globalSc = [(("x".data), Var.uninit)] ∧
    (lookup ((lookup ⟨[], [], []⟩ (-5) ("x".data)).2) (-5) ("x".data)).1
      = LookupOut.slotRef ScopeRef.globalS ("x".data) := by
  refine ⟨rfl, ?_, ?_⟩
  · have h := (c7_global_shared ⟨[], [], []⟩ ("x".data)).2.2.2.1 rfl
    simpa using h
  · have h2 := (c7_global_shared ⟨[], [], []⟩ ("x".data)).2.1
    rw [h2]
    exact (c7_global_shared ⟨[], [], []⟩ ("x".data)).1

/-- C10: rendering a boolean-kind argument writes the integer literal 1
exactly when the first character of the stored text is the digit 0 (an empty
text reads its NUL terminator and therefore writes 0), and writes 0 in every
other case — the output inverts the text read as a boolean. -/
theorem c10_bool_arg (v : List Char) (r : Int) :
    (renderArg ⟨ArgKind.arg_bool, v, r⟩ = some ("1".data) ↔
      v.headD (Char.ofNat 0) = '0') ∧
    (renderArg ⟨ArgKind.arg_bool, v, r⟩ = some ("0".data) ↔
      ¬ v.headD (Char.ofNat 0) = '0') := by
  have h10 : ("1".data : List Char) ≠ "0".data := by decide
  have hren : renderArg ⟨ArgKind.arg_bool, v, r⟩
      = some (if v.headD (Char.ofNat 0) = '0' then "1".data else "0".data) := rfl
  by_cases h : v.headD (Char.ofNat 0) = '0'
  · rw [hren, if_pos h]
    refine ⟨⟨fun _ => h, fun _ => rfl⟩, ⟨fun he => ?_, fun hne2 => absurd h hne2⟩⟩
    injection he with he
    exact absurd he h10
  · rw [hren, if_neg h]
    refine ⟨⟨fun he => ?_, fun h0 => absurd h0 h⟩, ⟨fun _ => h, fun _ => rfl⟩⟩
    injection he with he
    exact absurd he.symm h10

/-- C2 counterexample: when merging fails and opening the target succeeds,
`link` records the single "failed to link with runtime" diagnostic — so the
build fails — but still writes the final artifact at the target path,
refuting "no final artifact is produced at the target path". -/
theorem c2_counterexample :
    (link ⟨[], [], [], []⟩ true none ("game.bc".data)).2.errors
      = ["failed to link with runtime".data] ∧
    (link ⟨[], [], [], []⟩ true none ("game.bc".data)).2.artifacts
      = ["game.bc".data] := by
  exact ⟨rfl, rfl⟩

/-- C2 amended: whenever the merge of the intermediate and runtime modules
fails, exactly one "failed to link with runtime" diagnostic is recorded and
the build reports failure (error count at least 1); however the linker
continues: unless opening the target path itself fails (adding its own
filesystem diagnostic and producing nothing), the final artifact is still
written at the target path. -/
theorem c2_amended :
    (∀ (st : LinkSt) (target : List Char),
      (link st true none target).2.errors
        = st.errors ++ ["failed to link with runtime".data] ∧
      1 ≤ (link st true none target).2.errors.length ∧
      (link st true none target).2.artifacts = st.artifacts ++ [target] ∧
      (link st true none target).1 = true) ∧
    (∀ (st : LinkSt) (target e : List Char),
      (link st true (some e) target).2.errors
        = (st.errors ++ ["failed to link with runtime".data]) ++ [e] ∧
      (link st true (some e) target).2.artifacts = st.artifacts ∧
      (link st true (some e) target).1 = false) := by
  constructor
  · intro st target
    refine ⟨rfl, ?_, rfl, rfl⟩
    show 1 ≤ (st.errors ++ ["failed to link with runtime".data]).length
    simp
  · intro st target e
    exact ⟨rfl, rfl, rfl⟩

/-- C3 counterexample: the descriptors (parent, id) = (-1, 5) and (-2, 5)
are distinct pairs, yet both render the parent as absent (the test is
`parent > -1`), so the generated library-function names coincide. -/
theorem c3_counterexample :
    buildLibName (-1) 5 = buildLibName (-2) 5 ∧
    ¬ (((-1 : Int), (5 : Int)) = ((-2 : Int), (5 : Int))) := by
  exact ⟨by decide, by decide⟩

/-- C3 amended: for library action descriptors whose parent fields are at
least -1 (every parent value below -1 is rendered identically to the absent
parent -1), distinct (parent, id) pairs yield distinct library-function
names; and the callee name the synthesizer emits for an inline-code-kind
type always equals the name the library builder generated for that type's
(parent, id) pair. -/
theorem c3_amended :
    (∀ p1 i1 p2 i2 : Int, -1 ≤ p1 → -1 ≤ p2 →
      buildLibName p1 i1 = buildLibName p2 i2 → p1 = p2 ∧ i1 = i2) ∧
    (∀ p i : Int, inlineLibName p i = buildLibName p i) :=
  ⟨fun _ _ _ _ h1 h2 h => buildLibName_inj h1 h2 h, fun _ _ => rfl⟩

/-- C3 witness: the injectivity theorem applied at the concrete pair (3, 7),
whose generated name evaluates to `action_lib3_7`. -/
theorem c3_amended_witness :
    ((-1 : Int) ≤ 3) ∧ ((3 : Int) = 3 ∧ (7 : Int) = 7) ∧
    inlineLibName 3 7 = buildLibName 3 7 ∧
    buildLibName 3 7 = "action_lib3_7".data :=
  ⟨by decide, c3_amended.1 3 7 3 7 (by decide) (by decide) (by decide),
    c3_amended.2 3 7, by decide⟩

/-- Parser stub for the C1 evaluation: one diagnostic for the bad script's
text, none for anything else. -/
def c1parse : List Char → List (List Char) :=
  fun c => if c = "x = ;".data then ["unexpected token".data] else []

/-- Project with a syntax error in exactly one script (the first), followed
by a script that parses cleanly. -/
def c1game : game :=
  ⟨[], [⟨"f".data, "x = ;".data⟩, ⟨"g".data, "x = 0".data⟩], []⟩

/-- C1 (divergence evaluation): with a parse error in script `f` only,
script `g` parses cleanly, the build ends with error count 1 (failure), yet
no function at all is added — in particular `g`'s function is missing,
because `add_function` tests the sink's cumulative error count after
parsing, so every unit after the first failing one is abandoned too. -/
theorem c1_cumulative_abandon :
    c1parse ("x = 0".data) = [] ∧
    (build_scripts c1parse c1game ⟨[], [], [], []⟩).errors.length = 1 ∧
    (build_scripts c1parse c1game ⟨[], [], [], []⟩).fns = [] := by
  exact ⟨by decide, by decide, by decide⟩

/-- C9: synthesized inline-code unit names are injective in (object name,
event main id, event sub id, action index); and processing an action of
inline-code kind at index `a` submits exactly one fresh unit — that name,
the action's first argument text as source, zero declared arguments — to the
unit compiler, and splices the zero-argument call `name()` into the body. -/
theorem c9_inline_units :
    (∀ (o1 o2 : List Char) (m1 s1 a1 m2 s2 a2 : Nat),
      codeUnitName o1 m1 s1 a1 = codeUnitName o2 m2 s2 a2 →
      o1 = o2 ∧ m1 = m2 ∧ s1 = s2 ∧ a1 = a2) ∧
    (∀ (parse : List Char → List (List Char)) (obj : List Char) (m s a : Nat)
      (st : LinkSt) (body : List Char) (act : action),
      act.type.kind = ActKind.act_code →
      processAction parse obj m s (some (st, body)) (a, act) =
        some (add_function parse st
            ⟨(act.args.getD 0 defaultArg).val, codeUnitName obj m s a, 0, false⟩,
          body ++ codeUnitName obj m s a ++ "()\n".data)) := by
  constructor
  · intro o1 o2 m1 s1 a1 m2 s2 a2 h
    exact codeUnitName_inj h
  · intro parse obj m s a st body act hk
    simp only [processAction, hk]

/-- Concrete inline-code action for the C9 witness. -/
def c9act : action :=
  ⟨⟨ActKind.act_code, ExecKind.exec_code, false, false, 0, 0, [], 0⟩, -1, false, false,
    [⟨ArgKind.arg_expr, "x = 1".data, 0⟩]⟩

/-- C9 witness: the branch theorem applied at a concrete action and the name
evaluated at concrete data, plus injectivity applied at equal inputs. -/
theorem c9_inline_units_witness :
    c9act.type.kind = ActKind.act_code ∧
    processAction (fun _ => []) ("Obj".data) 1 2 (some (⟨[], [], [], []⟩, [])) (3, c9act) =
      some (add_function (fun _ => []) ⟨[], [], [], []⟩
          ⟨"x = 1".data, codeUnitName ("Obj".data) 1 2 3, 0, false⟩,
        codeUnitName ("Obj".data) 1 2 3 ++ "()\n".data) ∧
    codeUnitName ("Obj".data) 1 2 3 = "Obj_1_2_3".data ∧
    ("Obj".data = "Obj".data ∧ (1 : Nat) = 1 ∧ (2 : Nat) = 2 ∧ (3 : Nat) = 3) := by
  refine ⟨rfl, ?_, by decide,
    c9_inline_units.1 ("Obj".data) ("Obj".data) 1 2 3 1 2 3 rfl⟩
  have h := c9_inline_units.2 (fun _ => []) ("Obj".data) 1 2 3 ⟨[], [], [], []⟩ [] c9act rfl
  simpa using h

/-- C4: a normal-kind action with execution kind other than none contributes
to the event body, in order: a `with (<target>)` prefix exactly when the
target is not self; an `if (` prefix exactly when the type is a question; a
`!` exactly when the inv flag is set; the callee name — the library-function
name for inline-code execution kind, the type's literal code string
otherwise; `(`, the arguments joined by ", " and rendered per their kind,
a trailing relative-operation argument exactly when the type declares
relative, and `)`; a closing `)` exactly when the question prefix was
emitted; and the terminating newline.  The hypothesis `hr` states that every
argument's rendering terminates; the linker state is untouched. -/
theorem c4_normal_render (parse : List Char → List (List Char)) (obj : List Char)
    (m s a : Nat) (st : LinkSt) (body : List Char) (act : action)
    (parts : List (List Char))
    (hk : act.type.kind = ActKind.act_normal)
    (he : act.type.exec ≠ ExecKind.exec_none)
    (hr : renderArgs act.args = some parts) :
    processAction parse obj m s (some (st, body)) (a, act) =
      some (st, body ++ (
        (if act.target ≠ actionSelf then "with (".data ++ intDec act.target ++ ")".data else [])
        ++ (if act.type.question then "if (".data else [])
        ++ (if act.inv then "!".data else [])
        ++ (if act.type.exec = ExecKind.exec_code
            then inlineLibName act.type.parent act.type.id
            else act.type.code)
        ++ "(".data
        ++ List.intercalate (", ".data) parts
        ++ (if act.type.relative then ", ".data ++ boolStr act.relative else [])
        ++ ")".data
        ++ (if act.type.question then ")".data else [])
        ++ "\n".data)) := by
  simp only [processAction, hk]
  simp only [renderNormal, if_neg he, hr]
  rw [argLoop_eq_intercalate]

/-- Concrete normal action for the C4 witness: non-self target, question
type, inv set, inline-code callee, one expression and one boolean argument,
relative-capable type. -/
def c4act : action :=
  ⟨⟨ActKind.act_normal, ExecKind.exec_code, true, true, 3, 7, "xyz".data, 2⟩, 5, true, true,
    [⟨ArgKind.arg_expr, "x".data, 0⟩, ⟨ArgKind.arg_bool, "0".data, 0⟩]⟩

/-- C4 witness: the rendering theorem applied at a concrete action, its
output evaluated to the literal text. -/
theorem c4_normal_render_witness :
    c4act.type.kind = ActKind.act_normal ∧
    c4act.type.exec ≠ ExecKind.exec_none ∧
    renderArgs c4act.args = some ["x".data, "1".data] ∧
    processAction (fun _ => []) ("o".data) 0 0 (some (⟨[], [], [], []⟩, [])) (0, c4act) =
      some (⟨[], [], [], []⟩, "with (5)if (!action_lib3_7(x, 1, 1))\n".data) := by
  refine ⟨rfl, by decide, by decide, ?_⟩
  have h := c4_normal_render (fun _ => []) ("o".data) 0 0 0 ⟨[], [], [], []⟩ [] c4act
    ["x".data, "1".data] rfl (by decide) (by decide)
  rw [h]
  decide

/-- C8: `build_scripts` is the registration pass followed by the compilation
pass; the registration pass compiles nothing and registers exactly the
script names, so when any script body is compiled every script's name —
later-declared ones included — is already registered and calls to it
resolve; neither the library builder nor the object builder registers
anything (no other unit kind gets the two-pass treatment); and with no
diagnostics and cleanly parsing scripts, every script's function is added. -/
theorem c8_two_pass (parse : List Char → List (List Char)) (g : game) (st0 : LinkSt) :
    build_scripts parse g st0 = scriptsPass2 parse g (scriptsPass1 g st0) ∧
    (scriptsPass1 g st0).fns = st0.fns ∧
    (scriptsPass1 g st0).registered = st0.registered ++ g.scripts.map (fun s => s.name) ∧
    (∀ s, s ∈ g.scripts → resolvesScriptCall (scriptsPass1 g st0) s.name) ∧
    (build_libraries parse g st0).registered = st0.registered ∧
    (∀ st2, build_objects parse g st0 = some st2 → st2.registered = st0.registered) ∧
    (st0.errors = [] → (∀ s, s ∈ g.scripts → parse s.code = []) →
      (build_scripts parse g st0).fns
        = st0.fns ++ g.scripts.map (fun s => ⟨s.name, 0, true⟩)) := by
  refine ⟨rfl, scriptsPass1_fns g st0, scriptsPass1_registered g st0, ?_,
    build_libraries_registered parse g st0,
    fun st2 h => build_objects_registered parse g st0 st2 h, ?_⟩
  · intro s hs
    unfold resolvesScriptCall
    rw [scriptsPass1_registered]
    exact List.mem_append_right _ (List.mem_map_of_mem _ hs)
  · intro he hp
    unfold build_scripts scriptsPass2
    rw [scriptsPass2_fns_clean parse g.scripts (scriptsPass1 g st0)
      (by rw [scriptsPass1_errors]; exact he) hp, scriptsPass1_fns]

/-- Project for the C8 witness: script A calls script B, declared after A. -/
def c8game : game :=
  ⟨[], [⟨"A".data, "B()".data⟩, ⟨"B".data, "x = 0".data⟩], []⟩

/-- C8 witness: with a clean parser, B's name is registered when A's body is
compiled even though B is declared later, and both functions are added. -/
theorem c8_two_pass_witness :
    (⟨[], [], [], []⟩ : LinkSt).errors = [] ∧
    (∀ s, s ∈ c8game.scripts → (fun _ => ([] : List (List Char))) s.code = []) ∧
    resolvesScriptCall (scriptsPass1 c8game ⟨[], [], [], []⟩) ("B".data) ∧
    (build_scripts (fun _ => []) c8game ⟨[], [], [], []⟩).fns
      = [⟨"A".data, 0, true⟩, ⟨"B".data, 0, true⟩] := by
  refine ⟨rfl, fun s _ => rfl, ?_, ?_⟩
  · exact (c8_two_pass (fun _ => []) c8game ⟨[], [], [], []⟩).2.2.2.1
      ⟨"B".data, "x = 0".data⟩ (by decide)
  · rw [(c8_two_pass (fun _ => []) c8game ⟨[], [], [], []⟩).2.2.2.2.2.2 rfl
      (fun s _ => rfl)]
    decide
